import Mathlib

/-!
Verification of the `partner` repository's MCP core: the stdio JSON-RPC
transport (`internal/mcp/transport/stdio.go`) and the response decoders
(`internal/mcp/providers/things.go` and the Google Calendar provider).

The Go code is shallowly embedded: pure parsing functions become Lean
functions over `String`/`List Char`; the stateful transport becomes explicit
state passing; operations that can panic in Go (string slicing, slice
indexing) are modelled as `Option`-returning operations so that panic freedom
is a theorem rather than an artifact of the embedding.  Go byte indices are
modelled as character indices; every index the code computes sits on a
character boundary (the delimiters searched for are single-byte ASCII), so
the two coincide on the slices the code takes.
-/

namespace Partner

/-! ## Definitions

### JSON-RPC transport (src/internal/mcp/transport/stdio.go)

A line read from the child's stdout either fails `json.Unmarshal` (malformed)
or yields a `JSONRPCResponse`.  In Go, a JSON line with no `id` field
unmarshals to `ID = 0`, and absent `result`/`error` fields unmarshal to `nil`,
modelled here with `Option`. -/

structure JSONRPCError where
  code : Int
  message : String
deriving DecidableEq, Repr

structure JSONRPCResponse where
  id : Int
  result : Option String
  error : Option JSONRPCError
deriving DecidableEq, Repr

inductive OutLine where
  | malformed (raw : String)
  | parsed (resp : JSONRPCResponse)
deriving DecidableEq, Repr

inductive CallError where
  | readFailed
  | rpcError (e : JSONRPCError)
deriving DecidableEq, Repr

/-- `(*JSONRPCError).Error()`: `fmt.Sprintf("JSON-RPC error %d: %s", e.Code, e.Message)`. -/
def jsonRPCErrorString (e : JSONRPCError) : String :=
  "JSON-RPC error " ++ toString e.code ++ ": " ++ e.message

/-- The read loop of `Call` (stdio.go lines 186-210): read lines until one
parses as a JSON-RPC message matching the allocated id.  Malformed lines are
skipped; parsed lines with zero id and neither result nor error are skipped
as notifications; a matching response either surfaces its error or returns
its result; every other parsed line is skipped.  `ReadBytes` failing at
end of stream is `readFailed`.  Returns the unread remainder of the stream. -/
def readUntilMatch (id : Int) : List OutLine → Except CallError (Option String × List OutLine)
  | [] => .error .readFailed
  | .malformed _ :: rest => readUntilMatch id rest
  | .parsed resp :: rest =>
    if resp.id = 0 ∧ resp.result = none ∧ resp.error = none then
      readUntilMatch id rest
    else if resp.id = id then
      match resp.error with
      | some e => .error (.rpcError e)
      | none => .ok (resp.result, rest)
    else
      readUntilMatch id rest

/-- One `Call` against a transport whose request counter is `reqID` and whose
pending stdout stream is `stream` (stdio.go lines 156-211, after the
request has been written): the id is allocated as `reqID + 1`
(`atomic.AddInt64(&t.reqID, 1)`), then the read loop runs.  Returns the new
counter, the call outcome, and the unread remainder of the stream. -/
def callStep (reqID : Int) (stream : List OutLine) :
    Int × Except CallError (Option String) × List OutLine :=
  let id := reqID + 1
  match readUntilMatch id stream with
  | .error e => (id, .error e, [])
  | .ok (res, rest) => (id, .ok res, rest)

/-- A stdout line the read loop always skips: a malformed line, or a parsed
notification (no id, no result, no error). -/
def skippableLine : OutLine → Bool
  | .malformed _ => true
  | .parsed resp => resp.id == 0 && resp.result == none && resp.error == none

/-! ### Start (stdio.go lines 100-121)

`Start` declares a local `startErr`, runs the spawn + handshake body under
`sync.Once`, and returns `startErr`.  Because `startErr` is local, a second
call — whose `once.Do` body does not run — always returns `nil`.  The
environment records the outcomes of `cmd.Start()` and of the `initialize`
handshake, which are fixed for one transport instance. -/

structure StartEnv where
  spawnErr : Option String
  initErr : Option String
deriving DecidableEq, Repr

inductive StartError where
  | spawnFailed (msg : String)
  | initFailed (msg : String)
deriving DecidableEq, Repr

structure StartState where
  onceDone : Bool
  started : Bool
  spawnCount : Nat
deriving DecidableEq, Repr

def initialStartState : StartState := ⟨false, false, 0⟩

/-- `(*StdioTransport).Start`: the `once.Do` body runs only when `onceDone`
is false; the body attempts the spawn (counted by `spawnCount`), sets
`started` on success, then runs the `initialize` handshake. -/
def Start (env : StartEnv) (t : StartState) : Option StartError × StartState :=
  if t.onceDone then (none, t)
  else
    match env.spawnErr with
    | some msg =>
      (some (.spawnFailed msg), { t with onceDone := true, spawnCount := t.spawnCount + 1 })
    | none =>
      let t' : StartState :=
        { t with onceDone := true, started := true, spawnCount := t.spawnCount + 1 }
      match env.initErr with
      | some msg => (some (.initFailed msg), t')
      | none => (none, t')

/-! ### Concurrent calls against one transport (stdio.go lines 164-210)

`Call` takes `t.mu.Lock()` before writing the request and releases it only
after the matching response has been read, so one whole call is one atomic
critical section.  The interleaving of N concurrent callers is therefore a
sequence of atomic whole-call steps, each picking some caller that has not
completed yet.  A well-behaved server answers request `id` with some
notification/diagnostic noise followed by the response carrying that id. -/

structure ServerReply where
  noise : List OutLine
  result : Option String

/-- The stdout lines the server emits in answer to request `id`. -/
def replyLines (id : Int) (r : ServerReply) : List OutLine :=
  r.noise ++ [.parsed ⟨id, r.result, none⟩]

def WellBehaved (server : Int → ServerReply) : Prop :=
  ∀ id : Int, ∀ l ∈ (server id).noise, skippableLine l = true

/-- Shared transport state plus, per caller, `none` while that caller's
`Call` has not run, or the allocated id and outcome once it has. -/
structure ConcState where
  reqID : Int
  callers : List (Option (Int × Except CallError (Option String)))

def initConc (n : Nat) : ConcState := ⟨0, List.replicate n none⟩

def doneEntries (s : ConcState) : List (Int × Except CallError (Option String)) :=
  s.callers.reduceOption

/-- One atomic step: a caller that has not yet called acquires the mutex,
allocates id `reqID + 1`, writes its request, reads until the matching
response, and releases the mutex. -/
inductive CStep (server : Int → ServerReply) : ConcState → ConcState → Prop
  | call (s : ConcState) (i : Nat) (hi : i < s.callers.length)
      (hidle : s.callers.get ⟨i, hi⟩ = none) :
      CStep server s
        ⟨s.reqID + 1,
          s.callers.set i (some (s.reqID + 1,
            (callStep s.reqID (replyLines (s.reqID + 1) (server (s.reqID + 1)))).2.1))⟩

inductive Steps (server : Int → ServerReply) : ConcState → ConcState → Prop
  | refl (s : ConcState) : Steps server s s
  | tail {s t u : ConcState} : Steps server s t → CStep server t u → Steps server s u

/-- Invariant carried through every execution: the counter equals the number
of completed calls, every completed call got the result the server attached
to its own id, and no two completed calls share an id. -/
def ConcInv (n : Nat) (server : Int → ServerReply) (s : ConcState) : Prop :=
  s.callers.length = n ∧
    s.reqID = ((doneEntries s).length : Int) ∧
    (∀ e ∈ doneEntries s, 1 ≤ e.1 ∧ e.1 ≤ s.reqID ∧ e.2 = .ok (server e.1).result) ∧
    ((doneEntries s).map Prod.fst).Nodup

/-- The concrete server used to witness the concurrency theorem. -/
def cServer : Int → ServerReply := fun _ => ⟨[.malformed "server log line"], some "payload"⟩

/-- The final state of the two-caller witness execution. -/
def cFinal : ConcState :=
  ⟨2, [some (1, .ok (some "payload")), some (2, .ok (some "payload"))]⟩

/-! ### Go string primitives

Strings are modelled at the character level.  Go's byte-indexed `s[:i]` and
`s[i:]` are used by the code only at the boundary of a single-byte `':'`
delimiter, where byte slicing and character slicing produce the same string.
Slicing carries Go's panic semantics explicitly (`none` = out of bounds). -/

/-- `unicode.IsSpace`: the Unicode White_Space property. -/
def goIsSpace (c : Char) : Bool :=
  c.toNat = 0x9 || c.toNat = 0xA || c.toNat = 0xB || c.toNat = 0xC || c.toNat = 0xD ||
    c.toNat = 0x20 || c.toNat = 0x85 || c.toNat = 0xA0 || c.toNat = 0x1680 ||
    (0x2000 ≤ c.toNat && c.toNat ≤ 0x200A) || c.toNat = 0x2028 || c.toNat = 0x2029 ||
    c.toNat = 0x202F || c.toNat = 0x205F || c.toNat = 0x3000

def dropCharsWhile (p : Char → Bool) : List Char → List Char
  | [] => []
  | c :: cs => if p c then dropCharsWhile p cs else c :: cs

/-- `strings.TrimSpace`. -/
def goTrimSpace (s : String) : String :=
  ⟨dropCharsWhile goIsSpace (dropCharsWhile goIsSpace s.data.reverse).reverse⟩

/-- Does the second list begin with the first? -/
def charsBeginWith : List Char → List Char → Bool
  | [], _ => true
  | _ :: _, [] => false
  | p :: ps, c :: cs => p == c && charsBeginWith ps cs

/-- `strings.HasPrefix`. -/
def goStartsWith (s p : String) : Bool := charsBeginWith p.data s.data

/-- `strings.TrimPrefix`. -/
def goTrimLeading (s p : String) : String :=
  if goStartsWith s p then ⟨s.data.drop p.data.length⟩ else s

/-- `strings.Contains(s, c)` for a one-character needle. -/
def goContainsChar (s : String) (c : Char) : Bool := s.data.contains c

def charIndex (c : Char) : List Char → Option Nat
  | [] => none
  | x :: xs => if x == c then some 0 else (charIndex c xs).map (· + 1)

/-- `strings.Index(s, c)` for a one-character needle; `none` models `-1`. -/
def goIndexChar (s : String) (c : Char) : Option Nat := charIndex c s.data

/-- Go `s[:i]`; `none` is the slice-bounds panic. -/
def goSliceTo (s : String) (i : Nat) : Option String :=
  if i ≤ s.data.length then some ⟨s.data.take i⟩ else none

/-- Go `s[i:]`; `none` is the slice-bounds panic. -/
def goSliceFrom (s : String) (i : Nat) : Option String :=
  if i ≤ s.data.length then some ⟨s.data.drop i⟩ else none

/-- Index of the first occurrence of `sep` in `cs`. -/
def findSub (sep : List Char) : List Char → Option Nat
  | [] => if sep.isEmpty then some 0 else none
  | c :: rest =>
    if charsBeginWith sep (c :: rest) then some 0 else (findSub sep rest).map (· + 1)

/-- `strings.Split` around each leftmost non-overlapping occurrence of a
non-empty separator.  The fuel only bounds the iteration count; each round
consumes at least one character, so `length + 1` rounds always complete. -/
def goSplitAux (sep : List Char) : Nat → List Char → List (List Char)
  | 0, cs => [cs]
  | fuel + 1, cs =>
    match findSub sep cs with
    | none => [cs]
    | some i =>
      if sep.isEmpty then [cs]
      else cs.take i :: goSplitAux sep fuel (cs.drop (i + sep.length))

def goSplit (s sep : String) : List String :=
  (goSplitAux sep.data (s.data.length + 1) s.data).map fun cs => ⟨cs⟩

/-! ### Go time values (the slices of `time.Time` the code observes) -/

inductive GoLocation where
  | utc
  | local
  | fixedOffset (seconds : Int)
deriving DecidableEq, Repr

structure GoTime where
  year : Int
  month : Nat
  day : Nat
  hour : Nat
  minute : Nat
  second : Nat
  loc : GoLocation
deriving DecidableEq, Repr

/-- Go's zero `time.Time`: January 1, year 1, 00:00:00 UTC. -/
def goZeroTime : GoTime := ⟨1, 1, 1, 0, 0, 0, .utc⟩

/-- Midnight on a calendar day in the process's local time zone: what the
spec's "local wall-clock midnight" denotes. -/
def localMidnightOn (y : Int) (m d : Nat) : GoTime := ⟨y, m, d, 0, 0, 0, .local⟩

def isLeapYear (y : Int) : Bool :=
  y % 4 == 0 && (y % 100 != 0 || y % 400 == 0)

def daysInMonth (y : Int) (m : Nat) : Nat :=
  if m = 2 then (if isLeapYear y then 29 else 28)
  else if m = 4 ∨ m = 6 ∨ m = 9 ∨ m = 11 then 30
  else 31

def digitVal (c : Char) : Nat := c.toNat - 48

/-- `time.Parse("2006-01-02", s)`: exactly `dddd-dd-dd`, month and day
range-checked; with no zone indicator in the layout, Go documents that the
result is in UTC — midnight UTC on the given day. -/
def parseDateYMD (s : String) : Option GoTime :=
  match s.data with
  | [y1, y2, y3, y4, h1, m1, m2, h2, d1, d2] =>
    if h1 = '-' ∧ h2 = '-' ∧ y1.isDigit ∧ y2.isDigit ∧ y3.isDigit ∧ y4.isDigit ∧
        m1.isDigit ∧ m2.isDigit ∧ d1.isDigit ∧ d2.isDigit then
      let y : Int := (digitVal y1 * 1000 + digitVal y2 * 100 + digitVal y3 * 10 + digitVal y4 : Nat)
      let m : Nat := digitVal m1 * 10 + digitVal m2
      let d : Nat := digitVal d1 * 10 + digitVal d2
      if 1 ≤ m ∧ m ≤ 12 ∧ 1 ≤ d ∧ d ≤ daysInMonth y m then
        some ⟨y, m, d, 0, 0, 0, .utc⟩
      else none
    else none
  | _ => none

/-! ### Things domain records and the delimited-text task decoder
(src/internal/mcp/providers/things.go) -/

structure ChecklistItem where
  title : String
  status : String
deriving DecidableEq, Repr

structure Task where
  uuid : String
  title : String
  status : String
  notes : String
  tags : List String
  deadline : Option GoTime
  startDate : Option GoTime
  createdAt : Option GoTime
  completedAt : Option GoTime
  projectUUID : String
  projectTitle : String
  areaUUID : String
  areaTitle : String
  checklistItems : List ChecklistItem
deriving DecidableEq, Repr

def emptyTask : Task := ⟨"", "", "", "", [], none, none, none, none, "", "", "", "", []⟩

/-- The loop state of `parseTaskBlock`: the task under construction, the
`notesBuilder` contents, and the two scanner modes. -/
structure ScanState where
  task : Task
  notes : String
  inNotes : Bool
  inChecklist : Bool
deriving DecidableEq, Repr

def initialScanState : ScanState := ⟨emptyTask, "", false, false⟩

/-- The condition ending multi-line notes mode (things.go lines 266-267):
only these four key prefixes are checked. -/
def notesTerminator (line : String) : Bool :=
  goStartsWith line "Project:" || goStartsWith line "Tags:" ||
    goStartsWith line "Checklist:" || goStartsWith line "Deadline:"

/-- Leaving notes mode: commit the trimmed builder into `task.Notes`
(things.go lines 268-269). -/
def endNotes (st : ScanState) : ScanState :=
  { st with inNotes := false, task := { st.task with notes := goTrimSpace st.notes } }

/-- `switch key` of `parseTaskBlock` (things.go lines 282-309). -/
def applyKV (st : ScanState) (key value : String) : ScanState :=
  if key = "Title" then { st with task := { st.task with title := value } }
  else if key = "UUID" then { st with task := { st.task with uuid := value } }
  else if key = "Status" then { st with task := { st.task with status := value } }
  else if key = "Notes" then { st with inNotes := true, notes := st.notes ++ value ++ "\n" }
  else if key = "Project" then { st with task := { st.task with projectTitle := value } }
  else if key = "Tags" then
    if value ≠ "" then { st with task := { st.task with tags := goSplit value ", " } } else st
  else if key = "Checklist" then { st with inChecklist := true }
  else if key = "Start Date" then
    match parseDateYMD value with
    | some t => { st with task := { st.task with startDate := some t } }
    | none => st
  else if key = "Deadline" then
    match parseDateYMD value with
    | some t => { st with task := { st.task with deadline := some t } }
    | none => st
  else st

/-- `if idx := strings.Index(line, ":"); idx > 0` followed by the two slices
and trims (things.go lines 278-280).  The outer `some` is normal control
flow; the inner `Option` is `none` when the line is not treated as a
key/value pair.  A slice-bounds panic would be the outer `none`. -/
def lineKV (line : String) : Option (Option (String × String)) :=
  match goIndexChar line ':' with
  | some idx =>
    if 0 < idx then
      match goSliceTo line idx, goSliceFrom line (idx + 1) with
      | some k, some v => some (some (goTrimSpace k, goTrimSpace v))
      | _, _ => none
    else some none
  | none => some none

/-- One iteration of the `parseTaskBlock` scanner loop (things.go lines
241-311), with the three modes: checklist continuation, notes continuation,
and normal key/value parsing. -/
def processLine (st : ScanState) (rawLine : String) : Option ScanState :=
  let line := goTrimSpace rawLine
  if st.inChecklist && (goStartsWith line "□" || goStartsWith line "☑") then
    let itemTitle := goTrimSpace (goTrimLeading (goTrimLeading line "□") "☑")
    let status := if goStartsWith line "☑" then "completed" else "incomplete"
    some { st with task := { st.task with
      checklistItems := st.task.checklistItems ++ [⟨itemTitle, status⟩] } }
  else if st.inChecklist && (line != "") && !(goContainsChar line ':') then
    some st
  else
    let st := { st with inChecklist := false }
    if st.inNotes && !(notesTerminator line) then
      some { st with notes := st.notes ++ line ++ "\n" }
    else
      let st := if st.inNotes then endNotes st else st
      match lineKV line with
      | none => none
      | some none => some st
      | some (some (k, v)) => some (applyKV st k v)

def scanLines (st : ScanState) : List String → Option ScanState
  | [] => some st
  | l :: ls =>
    match processLine st l with
    | none => none
    | some st' => scanLines st' ls

/-- `parseTaskBlock` (things.go lines 233-319): scan the lines, then commit
any still-open notes. -/
def parseTaskBlock (block : String) : Option Task :=
  match scanLines initialScanState (goSplit block "\n") with
  | none => none
  | some st =>
    if st.inNotes then some { st.task with notes := goTrimSpace st.notes }
    else some st.task

/-- The tool-result envelope (src/internal/mcp/client, `ToolResult` and
`ContentBlock`). -/
structure ContentBlock where
  type : String
  text : String
deriving DecidableEq, Repr

structure ToolResult where
  content : List ContentBlock
  isError : Bool
deriving DecidableEq, Repr

/-- Inner loop of `parseTasks` over the chunks of one text block
(things.go lines 215-225): trim, drop empty chunks, parse, keep only tasks
with a non-empty title. -/
def collectTasks (acc : List Task) : List String → Option (List Task)
  | [] => some acc
  | chunk :: rest =>
    let chunk := goTrimSpace chunk
    if chunk = "" then collectTasks acc rest
    else
      match parseTaskBlock chunk with
      | none => none
      | some task =>
        if task.title ≠ "" then collectTasks (acc ++ [task]) rest
        else collectTasks acc rest

/-- Outer loop of `parseTasks` over the content blocks (things.go lines
212-227). -/
def collectBlocks (acc : List Task) : List ContentBlock → Option (List Task)
  | [] => some acc
  | block :: rest =>
    if block.type = "text" ∧ block.text ≠ "" then
      match collectTasks acc (goSplit block.text "\n---\n") with
      | none => none
      | some acc' => collectBlocks acc' rest
    else collectBlocks acc rest

/-- `parseTasks` (things.go lines 206-230).  The `Option String` component
is Go's `error` return value, which is `nil` on every path; the outer
`Option` is panic propagation. -/
def parseTasks (result : ToolResult) : Option (List Task × Option String) :=
  if result.content.length = 0 then some ([], none)
  else
    match collectBlocks [] result.content with
    | none => none
    | some tasks => some (tasks, none)

/-! ### Google Calendar structured JSON decoder

`json.Unmarshal` is factored into a grammar phase (text to JSON value),
which the embedding abstracts as a `String → Option Json` parameter — both
unmarshal attempts in `parseEvents` parse the same text, so they share one
value — and a value-to-struct phase, embedded here following encoding/json:
object keys match struct tags up to ASCII case folding, `null` leaves the
target untouched, type mismatches fail the decode, unknown keys are
ignored. -/

inductive Json where
  | null
  | bool (b : Bool)
  | num (n : Int)
  | str (s : String)
  | arr (elems : List Json)
  | obj (fields : List (String × Json))

/-- ASCII `strings.EqualFold`, the key-to-tag comparison of encoding/json
(all tags in this code are ASCII). -/
def foldEqChar (a b : Char) : Bool := a.toLower == b.toLower

def foldEqChars : List Char → List Char → Bool
  | [], [] => true
  | a :: as, b :: bs => foldEqChar a b && foldEqChars as bs
  | _, _ => false

def keyMatches (key tag : String) : Bool := foldEqChars key.data tag.data

/-- Unmarshal into a `string` field: a JSON string sets it, `null` leaves
it, anything else is a type error. -/
def setStringField (cur : String) : Json → Option String
  | .str s => some s
  | .null => some cur
  | _ => none

/-- Unmarshal into a `bool` field. -/
def setBoolField (cur : Bool) : Json → Option Bool
  | .bool b => some b
  | .null => some cur
  | _ => none

def foldFields {α : Type} (f : α → String → Json → Option α) : α → List (String × Json) → Option α
  | a, [] => some a
  | a, (k, v) :: rest =>
    match f a k v with
    | none => none
    | some a' => foldFields f a' rest

def decodeList {α β : Type} (dec : α → Option β) : List α → Option (List β)
  | [] => some []
  | j :: js =>
    match dec j with
    | none => none
    | some a => (decodeList dec js).map (a :: ·)

/-- `gcalDateTime`: `{dateTime, date, timeZone string}`. -/
structure GcalDateTime where
  dateTime : String
  date : String
  timeZone : String
deriving DecidableEq, Repr

def emptyGcalDateTime : GcalDateTime := ⟨"", "", ""⟩

def decodeDateTimeField (dt : GcalDateTime) (key : String) (v : Json) : Option GcalDateTime :=
  if keyMatches key "dateTime" then (setStringField dt.dateTime v).map fun s => { dt with dateTime := s }
  else if keyMatches key "date" then (setStringField dt.date v).map fun s => { dt with date := s }
  else if keyMatches key "timeZone" then (setStringField dt.timeZone v).map fun s => { dt with timeZone := s }
  else some dt

/-- Unmarshal into a `gcalDateTime` value: an object folds its fields,
`null` leaves the value, anything else is a type error. -/
def decodeGcalDateTime (cur : GcalDateTime) : Json → Option GcalDateTime
  | .obj fields => foldFields decodeDateTimeField cur fields
  | .null => some cur
  | _ => none

/-- `gcalOrganizer`: `{email, displayName string; self bool}`. -/
structure GcalOrganizer where
  email : String
  displayName : String
  self : Bool
deriving DecidableEq, Repr

def emptyGcalOrganizer : GcalOrganizer := ⟨"", "", false⟩

def decodeOrganizerField (o : GcalOrganizer) (key : String) (v : Json) : Option GcalOrganizer :=
  if keyMatches key "email" then (setStringField o.email v).map fun s => { o with email := s }
  else if keyMatches key "displayName" then (setStringField o.displayName v).map fun s => { o with displayName := s }
  else if keyMatches key "self" then (setBoolField o.self v).map fun b => { o with self := b }
  else some o

def decodeGcalOrganizer (cur : GcalOrganizer) : Json → Option GcalOrganizer
  | .obj fields => foldFields decodeOrganizerField cur fields
  | .null => some cur
  | _ => none

/-- `gcalAttendee`: `{email, displayName, responseStatus string}`. -/
structure GcalAttendee where
  email : String
  displayName : String
  responseStatus : String
deriving DecidableEq, Repr

def emptyGcalAttendee : GcalAttendee := ⟨"", "", ""⟩

def decodeAttendeeField (a : GcalAttendee) (key : String) (v : Json) : Option GcalAttendee :=
  if keyMatches key "email" then (setStringField a.email v).map fun s => { a with email := s }
  else if keyMatches key "displayName" then (setStringField a.displayName v).map fun s => { a with displayName := s }
  else if keyMatches key "responseStatus" then (setStringField a.responseStatus v).map fun s => { a with responseStatus := s }
  else some a

def decodeGcalAttendee (cur : GcalAttendee) : Json → Option GcalAttendee
  | .obj fields => foldFields decodeAttendeeField cur fields
  | .null => some cur
  | _ => none

/-- `gcalEvent` (gcal provider, lines 509-519); `end_` stands for the Go
field `End` with JSON tag "end". -/
structure GcalEvent where
  id : String
  summary : String
  location : String
  start : GcalDateTime
  end_ : GcalDateTime
  status : String
  htmlLink : String
  organizer : GcalOrganizer
  attendees : List GcalAttendee
deriving DecidableEq, Repr

def emptyGcalEvent : GcalEvent :=
  ⟨"", "", "", emptyGcalDateTime, emptyGcalDateTime, "", "", emptyGcalOrganizer, []⟩

def decodeEventField (e : GcalEvent) (key : String) (v : Json) : Option GcalEvent :=
  if keyMatches key "id" then (setStringField e.id v).map fun s => { e with id := s }
  else if keyMatches key "summary" then (setStringField e.summary v).map fun s => { e with summary := s }
  else if keyMatches key "location" then (setStringField e.location v).map fun s => { e with location := s }
  else if keyMatches key "start" then (decodeGcalDateTime e.start v).map fun d => { e with start := d }
  else if keyMatches key "end" then (decodeGcalDateTime e.end_ v).map fun d => { e with end_ := d }
  else if keyMatches key "status" then (setStringField e.status v).map fun s => { e with status := s }
  else if keyMatches key "htmlLink" then (setStringField e.htmlLink v).map fun s => { e with htmlLink := s }
  else if keyMatches key "organizer" then (decodeGcalOrganizer e.organizer v).map fun o => { e with organizer := o }
  else if keyMatches key "attendees" then
    match v with
    | .arr js => (decodeList (decodeGcalAttendee emptyGcalAttendee) js).map fun as => { e with attendees := as }
    | .null => some e
    | _ => none
  else some e

def decodeGcalEvent (cur : GcalEvent) : Json → Option GcalEvent
  | .obj fields => foldFields decodeEventField cur fields
  | .null => some cur
  | _ => none

/-- `json.Unmarshal(text, &gcalEvents)` at the value level: the top level
must be a JSON array (or `null`, which leaves the nil slice). -/
def decodeGcalEventList : Json → Option (List GcalEvent)
  | .arr elems => decodeList (decodeGcalEvent emptyGcalEvent) elems
  | .null => some []
  | _ => none

/-- Unmarshal into the anonymous `struct{ Events []gcalEvent }` whose single
field carries the tag "events" (gcal provider, lines 440-443). -/
def decodeWrappedField (evs : List GcalEvent) (key : String) (v : Json) : Option (List GcalEvent) :=
  if keyMatches key "events" then
    match v with
    | .arr elems => decodeList (decodeGcalEvent emptyGcalEvent) elems
    | .null => some evs
    | _ => none
  else some evs

def decodeWrappedEvents : Json → Option (List GcalEvent)
  | .obj fields => foldFields decodeWrappedField [] fields
  | .null => some []
  | _ => none

/-- `CalendarEvent` (providers, calendar.go). -/
structure CalendarEvent where
  id : String
  title : String
  startTime : GoTime
  endTime : GoTime
  location : String
  notes : String
  calendar : String
  allDay : Bool
deriving DecidableEq, Repr

def emptyCalendarEvent : CalendarEvent := ⟨"", "", goZeroTime, goZeroTime, "", "", "", false⟩

/-- `truncate` (gcal provider, lines 539-544), with the slice panic
explicit. -/
def truncate (s : String) (max : Nat) : Option String :=
  if s.data.length ≤ max then some s
  else (goSliceTo s max).map (· ++ "...")

/-- "Parse start time" (gcal provider, lines 458-471): a non-empty
`dateTime` is parsed as RFC3339; otherwise a non-empty `date` is parsed
with the date-only layout and marks the event all-day.  A parse failure
leaves the field untouched. -/
def startStep (rfc3339 : String → Option GoTime) (ge : GcalEvent)
    (ev : CalendarEvent) : CalendarEvent :=
  if ge.start.dateTime ≠ "" then
    match rfc3339 ge.start.dateTime with
    | some t => { ev with startTime := t }
    | none => ev
  else if ge.start.date ≠ "" then
    match parseDateYMD ge.start.date with
    | some t => { ev with startTime := t, allDay := true }
    | none => ev
  else ev

/-- "Parse end time" (lines 473-484). -/
def endStep (rfc3339 : String → Option GoTime) (ge : GcalEvent)
    (ev : CalendarEvent) : CalendarEvent :=
  if ge.end_.dateTime ≠ "" then
    match rfc3339 ge.end_.dateTime with
    | some t => { ev with endTime := t }
    | none => ev
  else if ge.end_.date ≠ "" then
    match parseDateYMD ge.end_.date with
    | some t => { ev with endTime := t }
    | none => ev
  else ev

/-- "Extract calendar name from organizer or set default" (lines 486-495);
the `parts[0]` index on the email split carries Go's panic explicitly. -/
def calendarStep (ge : GcalEvent) (ev : CalendarEvent) : Option CalendarEvent :=
  if ge.organizer.displayName ≠ "" then
    some { ev with calendar := ge.organizer.displayName }
  else if ge.organizer.email ≠ "" then
    match (goSplit ge.organizer.email "@").head? with
    | some first => some { ev with calendar := first }
    | none => none
  else
    some { ev with calendar := "Primary" }

/-- The per-record conversion loop body of `parseEvents` (gcal provider,
lines 451-497).  `rfc3339` abstracts `time.Parse(time.RFC3339, ·)`. -/
def convertEvent (rfc3339 : String → Option GoTime) (ge : GcalEvent) : Option CalendarEvent :=
  calendarStep ge (endStep rfc3339 ge (startStep rfc3339 ge
    { emptyCalendarEvent with id := ge.id, title := ge.summary, location := ge.location }))

/-- The structured-decode error of `parseEvents`: `fmt.Errorf("failed to
parse calendar events: %w (text: %s)", err, truncate(text, 200))`, carrying
the bounded preview. -/
inductive EventsError where
  | decodeFailed (preview : String)
deriving DecidableEq, Repr

/-- The text-extraction loop of `parseEvents` (lines 424-430): the first
content block of type "text", or the empty string. -/
def eventsText (result : ToolResult) : String :=
  ((result.content.find? fun b => b.type == "text").map fun b => b.text).getD ""

/-- The two unmarshal attempts of `parseEvents` (lines 437-447): direct
decode into `[]gcalEvent`, falling back to the `{"events": [...]}`
wrapper. -/
def decodeEventsText (jparse : String → Option Json) (text : String) :
    Option (List GcalEvent) :=
  match (jparse text).bind decodeGcalEventList with
  | some ges => some ges
  | none => (jparse text).bind decodeWrappedEvents

/-- `parseEvents` (gcal provider, lines 418-501): take the first "text"
content block, try a direct decode into `[]gcalEvent`, fall back to the
`{"events": [...]}` wrapper, and on a second failure report a decode error
with a bounded preview of the text. -/
def parseEvents (jparse : String → Option Json) (rfc3339 : String → Option GoTime)
    (result : ToolResult) : Option (Except EventsError (List CalendarEvent)) :=
  if result.content.length = 0 then some (.ok [])
  else
    let text := eventsText result
    if text = "" then some (.ok [])
    else
      match decodeEventsText jparse text with
      | some ges =>
        match decodeList (convertEvent rfc3339) ges with
        | some evs => some (.ok evs)
        | none => none
      | none =>
        (truncate text 200).map fun prev => .error (.decodeFailed prev)

/-- A concrete stand-in for the abstract RFC3339 parser in closed
evaluations whose inputs never reach the dateTime branch. -/
def noRfc : String → Option GoTime := fun _ => none

/-- The concrete event payload for the all-day-event evaluation: one event
with `start.date = "2025-03-10"`, no `start.dateTime`. -/
def alldayJson : Json :=
  .arr [.obj [("id", .str "evt1"), ("summary", .str "Standup"),
    ("start", .obj [("date", .str "2025-03-10")]),
    ("end", .obj [("date", .str "2025-03-11")])]]

def alldayResult : ToolResult := ⟨[⟨"text", "payload"⟩], false⟩

/-! ## Theorems -/

theorem readUntilMatch_skip (id : Int) (l : OutLine) (hl : skippableLine l = true)
    (rest : List OutLine) :
    readUntilMatch id (l :: rest) = readUntilMatch id rest := by
  cases l with
  | malformed raw => rfl
  | parsed resp =>
    simp only [skippableLine, Bool.and_eq_true, beq_iff_eq] at hl
    simp [readUntilMatch, hl.1.1, hl.1.2, hl.2]

theorem readUntilMatch_skip_noise (id : Int) (noise : List OutLine)
    (hnoise : ∀ l ∈ noise, skippableLine l = true) (rest : List OutLine) :
    readUntilMatch id (noise ++ rest) = readUntilMatch id rest := by
  induction noise with
  | nil => rfl
  | cons l tl ih =>
    rw [List.cons_append, readUntilMatch_skip id l (hnoise l (List.mem_cons_self l tl))]
    exact ih fun x hx => hnoise x (List.mem_cons_of_mem l hx)

theorem readUntilMatch_match (id : Int) (hid : id ≠ 0) (resp : JSONRPCResponse)
    (hrid : resp.id = id) (herr : resp.error = none) (rest : List OutLine) :
    readUntilMatch id (.parsed resp :: rest) = .ok (resp.result, rest) := by
  cases resp with
  | mk rid rres rerr =>
    simp only at hrid herr
    subst hrid; subst herr
    simp [readUntilMatch, hid]

theorem readUntilMatch_error (id : Int) (resp : JSONRPCResponse) (e : JSONRPCError)
    (hrid : resp.id = id) (herr : resp.error = some e) (rest : List OutLine) :
    readUntilMatch id (.parsed resp :: rest) = .error (.rpcError e) := by
  have hnz : ¬(resp.id = 0 ∧ resp.result = none ∧ resp.error = none) := by
    intro h; rw [herr] at h; exact Option.noConfusion h.2.2
  simp [readUntilMatch, hnz, hrid, herr]

theorem callStep_noise_ok (reqID : Int) (hreq : 0 ≤ reqID)
    (noise : List OutLine) (hnoise : ∀ l ∈ noise, skippableLine l = true)
    (resp : JSONRPCResponse) (hid : resp.id = reqID + 1) (herr : resp.error = none)
    (rest : List OutLine) :
    callStep reqID (noise ++ .parsed resp :: rest) = (reqID + 1, .ok resp.result, rest) := by
  have hnz : reqID + 1 ≠ 0 := by omega
  have hr : readUntilMatch (reqID + 1) (noise ++ .parsed resp :: rest)
      = .ok (resp.result, rest) := by
    rw [readUntilMatch_skip_noise _ noise hnoise, readUntilMatch_match _ hnz resp hid herr]
  simp [callStep, hr]

/-- C1.  For a well-formed exchange, `Call` returns the response's `result`
field verbatim when the response id equals the allocated id `reqID + 1`,
with any preceding notification lines and malformed lines silently skipped. -/
theorem call_skips_noise_returns_result (reqID : Int) (hreq : 0 ≤ reqID)
    (noise : List OutLine) (hnoise : ∀ l ∈ noise, skippableLine l = true)
    (resp : JSONRPCResponse) (hid : resp.id = reqID + 1) (herr : resp.error = none)
    (rest : List OutLine) :
    callStep reqID (noise ++ .parsed resp :: rest) = (reqID + 1, .ok resp.result, rest) :=
  callStep_noise_ok reqID hreq noise hnoise resp hid herr rest

/-- C1 witness: a malformed diagnostic line and a notification precede the
matching response; the result `"42"` comes back verbatim. -/
theorem call_skips_noise_returns_result_witness :
    callStep 0 [OutLine.malformed "panic recovered in tool", OutLine.parsed ⟨0, none, none⟩,
        OutLine.parsed ⟨1, some "42", none⟩]
      = (1, .ok (some "42"), []) := by
  have h := call_skips_noise_returns_result 0 (by decide)
    [OutLine.malformed "panic recovered in tool", OutLine.parsed ⟨0, none, none⟩]
    (by decide) ⟨1, some "42", none⟩ rfl rfl []
  simpa using h

/-- C3.  When the matching response carries an `error` object, `Call` fails
and the returned error carries the original code and message unmodified
(the Go code returns the `*JSONRPCError` itself). -/
theorem call_surfaces_rpc_error (reqID : Int)
    (noise : List OutLine) (hnoise : ∀ l ∈ noise, skippableLine l = true)
    (resp : JSONRPCResponse) (hid : resp.id = reqID + 1)
    (e : JSONRPCError) (herr : resp.error = some e) (rest : List OutLine) :
    callStep reqID (noise ++ .parsed resp :: rest)
        = (reqID + 1, .error (.rpcError ⟨e.code, e.message⟩), []) := by
  have hr : readUntilMatch (reqID + 1) (noise ++ .parsed resp :: rest)
      = .error (.rpcError e) := by
    rw [readUntilMatch_skip_noise _ noise hnoise, readUntilMatch_error _ resp e hid herr]
  simp [callStep, hr]

/-- C3 witness: an error response with code `-32601` and message
"method not found" is surfaced with both fields intact. -/
theorem call_surfaces_rpc_error_witness :
    callStep 0 [OutLine.parsed ⟨0, none, none⟩,
        OutLine.parsed ⟨1, none, some ⟨-32601, "method not found"⟩⟩]
      = (1, .error (.rpcError ⟨-32601, "method not found"⟩), []) := by
  have h := call_surfaces_rpc_error 0 [OutLine.parsed ⟨0, none, none⟩] (by decide)
    ⟨1, none, some ⟨-32601, "method not found"⟩⟩ rfl ⟨-32601, "method not found"⟩ rfl []
  simpa using h

/-- C4 counterexample: when the spawn fails, the first `Start` returns the
spawn error but the second `Start` returns `none` (success), not the first
call's outcome. -/
theorem start_second_call_drops_error :
    (Start ⟨some "executable not found", none⟩ initialStartState).1
        = some (.spawnFailed "executable not found") ∧
      (Start ⟨some "executable not found", none⟩
          (Start ⟨some "executable not found", none⟩ initialStartState).2).1 = none ∧
      (Start ⟨some "executable not found", none⟩
            (Start ⟨some "executable not found", none⟩ initialStartState).2).1
        ≠ (Start ⟨some "executable not found", none⟩ initialStartState).1 := by
  refine ⟨rfl, rfl, ?_⟩
  decide

/-- C4 amended.  Calling `Start` twice performs the spawn and handshake
exactly once; the second call is a no-op that leaves the state unchanged and
returns `none` — which equals the first call's outcome whenever the first
call succeeded, but is `none` (not the first error) when the first call
failed. -/
theorem start_spawns_once_second_call_none (env : StartEnv) :
    (Start env (Start env initialStartState).2).2 = (Start env initialStartState).2 ∧
      (Start env (Start env initialStartState).2).1 = none ∧
      (Start env initialStartState).2.spawnCount = 1 ∧
      ((Start env initialStartState).1 = none →
        (Start env (Start env initialStartState).2).1 = (Start env initialStartState).1) := by
  cases env with
  | mk spawnErr initErr =>
    cases spawnErr <;> cases initErr <;>
      simp [Start, initialStartState]

/-- C4 amended witness: a transport that spawns and initializes successfully;
both calls return `none` and the spawn ran once. -/
theorem start_spawns_once_second_call_none_witness :
    (Start ⟨none, none⟩ (Start ⟨none, none⟩ initialStartState).2).2
        = (Start ⟨none, none⟩ initialStartState).2 ∧
      (Start ⟨none, none⟩ (Start ⟨none, none⟩ initialStartState).2).1 = none ∧
      (Start ⟨none, none⟩ initialStartState).2.spawnCount = 1 ∧
      (Start ⟨none, none⟩ (Start ⟨none, none⟩ initialStartState).2).1
        = (Start ⟨none, none⟩ initialStartState).1 := by
  have h := start_spawns_once_second_call_none ⟨none, none⟩
  exact ⟨h.1, h.2.1, h.2.2.1, h.2.2.2 rfl⟩

theorem reduceOption_set_perm {α : Type} {l : List (Option α)} {i : Nat}
    (hi : i < l.length) (hnone : l.get ⟨i, hi⟩ = none) (v : α) :
    (l.set i (some v)).reduceOption.Perm (v :: l.reduceOption) := by
  induction l generalizing i with
  | nil => simp at hi
  | cons a tl ih =>
    cases i with
    | zero =>
      simp only [List.get] at hnone
      subst hnone
      simp [List.reduceOption_cons_of_some, List.reduceOption_cons_of_none]
    | succ j =>
      have hj : j < tl.length := Nat.lt_of_succ_lt_succ hi
      have hperm := ih hj (by simpa using hnone)
      cases a with
      | none =>
        simpa [List.reduceOption_cons_of_none] using hperm
      | some b =>
        simp only [List.set, List.reduceOption_cons_of_some]
        exact (hperm.cons b).trans (List.Perm.swap v b _)

theorem concInv_step {n : Nat} {server : Int → ServerReply} {s s' : ConcState}
    (hw : WellBehaved server) (hinv : ConcInv n server s) (hstep : CStep server s s') :
    ConcInv n server s' := by
  obtain ⟨hlen, hcount, hentries, hnodup⟩ := hinv
  cases hstep with
  | call i hi hidle =>
    have hreq0 : 0 ≤ s.reqID := by rw [hcount]; exact Int.ofNat_nonneg _
    set id := s.reqID + 1 with hiddef
    have hv : (callStep s.reqID (replyLines id (server id))).2.1
        = .ok (server id).result := by
      have h := callStep_noise_ok s.reqID hreq0 (server id).noise (hw id)
        ⟨id, (server id).result, none⟩ rfl rfl []
      rw [show replyLines id (server id)
            = (server id).noise ++ .parsed ⟨id, (server id).result, none⟩ :: [] from rfl, h]
    set v : Int × Except CallError (Option String) :=
      (id, (callStep s.reqID (replyLines id (server id))).2.1) with hvdef
    have hv2 : v = (id, .ok (server id).result) := by rw [hvdef, hv]
    have hperm := reduceOption_set_perm hi hidle v
    refine ⟨?_, ?_, ?_, ?_⟩
    · simpa [doneEntries] using hlen
    · have hlenp := hperm.length_eq
      simp only [List.length_cons] at hlenp
      simp only [doneEntries] at hlenp hcount ⊢
      rw [hlenp, hiddef, hcount]
      push_cast
      ring
    · intro e he
      have hmem : e ∈ v :: (doneEntries s) := hperm.mem_iff.mp he
      rcases List.mem_cons.mp hmem with hev | hold
      · rw [hev, hv2]
        exact ⟨by omega, by simp, rfl⟩
      · obtain ⟨h1, h2, h3⟩ := hentries e hold
        refine ⟨h1, ?_, h3⟩
        show e.1 ≤ id
        omega
    · have hmap := hperm.map Prod.fst
      show (List.map Prod.fst (s.callers.set i (some v)).reduceOption).Nodup
      rw [hmap.nodup_iff]
      simp only [List.map_cons]
      refine List.Nodup.cons ?_ hnodup
      intro hmem
      rcases List.mem_map.mp hmem with ⟨e, he, hefst⟩
      have hle := (hentries e he).2.1
      rw [hiddef] at hefst
      omega

theorem concInv_steps {n : Nat} {server : Int → ServerReply} {s s' : ConcState}
    (hw : WellBehaved server) (hinv : ConcInv n server s) (h : Steps server s s') :
    ConcInv n server s' := by
  induction h with
  | refl => exact hinv
  | tail _ hstep ih => exact concInv_step hw ih hstep

theorem concInv_init (n : Nat) (server : Int → ServerReply) :
    ConcInv n server (initConc n) := by
  have hred : (List.replicate n (none : Option (Int × Except CallError (Option String)))).reduceOption = [] := by
    induction n with
    | zero => rfl
    | succ m ih => simpa [List.replicate, List.reduceOption_cons_of_none] using ih
  refine ⟨by simp [initConc], ?_, ?_, ?_⟩
  · simp [initConc, doneEntries, hred]
  · intro e he
    simp [initConc, doneEntries, hred] at he
  · simp [initConc, doneEntries, hred]

/-- C2.  Because `Call` holds the transport mutex for the whole
write-request/read-response cycle, any interleaving of `n` concurrent calls
is a sequence of atomic whole-call steps.  In every complete execution each
caller receives the `result` the server attached to that caller's own
allocated id, the `n` allocated ids are pairwise distinct (ids `1..n`), and
exactly `n` calls complete — none lost, none duplicated. -/
theorem concurrent_calls_serialized (n : Nat) (server : Int → ServerReply)
    (hw : WellBehaved server) (s : ConcState)
    (hsteps : Steps server (initConc n) s)
    (hdone : ∀ o ∈ s.callers, o.isSome) :
    s.callers.length = n ∧ (doneEntries s).length = n ∧
      ((doneEntries s).map Prod.fst).Nodup ∧
      (∀ e ∈ doneEntries s,
        1 ≤ e.1 ∧ e.1 ≤ (n : Int) ∧ e.2 = Except.ok (server e.1).result) := by
  obtain ⟨hlen, hcount, hentries, hnodup⟩ := concInv_steps hw (concInv_init n server) hsteps
  have hfull : (doneEntries s).length = s.callers.length :=
    List.reduceOption_length_eq_iff.mpr hdone
  have hdn : (doneEntries s).length = n := by rw [hfull, hlen]
  refine ⟨hlen, hdn, hnodup, ?_⟩
  intro e he
  obtain ⟨h1, h2, h3⟩ := hentries e he
  rw [hcount, hdn] at h2
  exact ⟨h1, h2, h3⟩

/-- C2 witness: two callers against one transport; caller 0 runs second and
caller 1 first; both complete, with distinct ids 1 and 2 and each receiving
its own server result. -/
theorem concurrent_calls_serialized_witness :
    cFinal.callers.length = 2 ∧ (doneEntries cFinal).length = 2 ∧
      ((doneEntries cFinal).map Prod.fst).Nodup ∧
      (∀ e ∈ doneEntries cFinal,
        1 ≤ e.1 ∧ e.1 ≤ (2 : Int) ∧ e.2 = Except.ok (cServer e.1).result) := by
  have htrace : Steps cServer (initConc 2) cFinal := by
    have h1 : CStep cServer (initConc 2) ⟨1, [some (1, .ok (some "payload")), none]⟩ :=
      CStep.call (initConc 2) 0 (by decide) rfl
    have h2 : CStep cServer ⟨1, [some (1, .ok (some "payload")), none]⟩ cFinal :=
      CStep.call ⟨1, [some (1, .ok (some "payload")), none]⟩ 1 (by decide) rfl
    exact Steps.tail (Steps.tail (Steps.refl _) h1) h2
  exact concurrent_calls_serialized 2 cServer
    (fun id l hl => by
      simp only [cServer, List.mem_singleton] at hl
      subst hl
      rfl)
    cFinal htrace (by decide)

/-! ### Totality of the decoders -/

theorem charIndex_lt_length {c : Char} {cs : List Char} {i : Nat}
    (h : charIndex c cs = some i) : i < cs.length := by
  induction cs generalizing i with
  | nil => exact absurd h (by simp [charIndex])
  | cons x xs ih =>
    simp only [charIndex] at h
    split at h
    · injection h with h
      subst h
      simp
    · cases hj : charIndex c xs with
      | none => rw [hj] at h; cases h
      | some j =>
        rw [hj] at h
        injection h with h
        subst h
        have := ih hj
        simp only [List.length_cons]
        omega

theorem lineKV_total (line : String) : ∃ r, lineKV line = some r := by
  unfold lineKV goIndexChar
  cases h : charIndex ':' line.data with
  | none => exact ⟨none, rfl⟩
  | some idx =>
    dsimp only
    by_cases hpos : 0 < idx
    · have hlt : idx < line.data.length := charIndex_lt_length h
      have h1 : goSliceTo line idx = some ⟨line.data.take idx⟩ := by
        unfold goSliceTo
        rw [if_pos (Nat.le_of_lt hlt)]
      have h2 : goSliceFrom line (idx + 1) = some ⟨line.data.drop (idx + 1)⟩ := by
        unfold goSliceFrom
        rw [if_pos (by omega)]
      rw [if_pos hpos, h1, h2]
      exact ⟨_, rfl⟩
    · rw [if_neg hpos]
      exact ⟨none, rfl⟩

theorem processLine_total (st : ScanState) (rawLine : String) :
    ∃ st', processLine st rawLine = some st' := by
  simp only [processLine]
  split
  · exact ⟨_, rfl⟩
  · split
    · exact ⟨_, rfl⟩
    · split
      · exact ⟨_, rfl⟩
      · obtain ⟨r, hr⟩ := lineKV_total (goTrimSpace rawLine)
        rw [hr]
        cases r with
        | none => exact ⟨_, rfl⟩
        | some kv => exact ⟨_, rfl⟩

theorem scanLines_total (lines : List String) (st : ScanState) :
    ∃ st', scanLines st lines = some st' := by
  induction lines generalizing st with
  | nil => exact ⟨st, rfl⟩
  | cons l ls ih =>
    obtain ⟨st1, h1⟩ := processLine_total st l
    obtain ⟨st2, h2⟩ := ih st1
    exact ⟨st2, by simp [scanLines, h1, h2]⟩

theorem parseTaskBlock_total (block : String) : ∃ t, parseTaskBlock block = some t := by
  unfold parseTaskBlock
  obtain ⟨st, hst⟩ := scanLines_total (goSplit block "\n") initialScanState
  rw [hst]
  dsimp only
  split
  · exact ⟨_, rfl⟩
  · exact ⟨_, rfl⟩

theorem collectTasks_total (chunks : List String) (acc : List Task) :
    ∃ ts, collectTasks acc chunks = some ts := by
  induction chunks generalizing acc with
  | nil => exact ⟨acc, rfl⟩
  | cons c cs ih =>
    simp only [collectTasks]
    split
    · exact ih acc
    · obtain ⟨task, htask⟩ := parseTaskBlock_total (goTrimSpace c)
      rw [htask]
      dsimp only
      split
      · exact ih (acc ++ [task])
      · exact ih acc

theorem collectBlocks_total (blocks : List ContentBlock) (acc : List Task) :
    ∃ ts, collectBlocks acc blocks = some ts := by
  induction blocks generalizing acc with
  | nil => exact ⟨acc, rfl⟩
  | cons b bs ih =>
    simp only [collectBlocks]
    split
    · obtain ⟨acc', hacc'⟩ := collectTasks_total (goSplit b.text "\n---\n") acc
      rw [hacc']
      dsimp only
      exact ih acc'
    · exact ih acc

theorem parseTasks_total (result : ToolResult) :
    ∃ ts, parseTasks result = some (ts, none) := by
  unfold parseTasks
  split
  · exact ⟨[], rfl⟩
  · obtain ⟨ts, hts⟩ := collectBlocks_total result.content []
    rw [hts]
    dsimp only
    exact ⟨ts, rfl⟩

theorem goSplitAux_ne_nil (sep : List Char) (fuel : Nat) (cs : List Char) :
    goSplitAux sep fuel cs ≠ [] := by
  cases fuel with
  | zero => simp [goSplitAux]
  | succ f =>
    unfold goSplitAux
    split
    · simp
    · split <;> simp

theorem goSplit_ne_nil (s sep : String) : goSplit s sep ≠ [] := by
  unfold goSplit
  intro h
  exact goSplitAux_ne_nil sep.data (s.data.length + 1) s.data (List.map_eq_nil_iff.mp h)

theorem calendarStep_some (ge : GcalEvent) (ev : CalendarEvent) :
    ∃ out, calendarStep ge ev = some out ∧ out.allDay = ev.allDay ∧
      out.startTime = ev.startTime := by
  unfold calendarStep
  split
  · exact ⟨_, rfl, rfl, rfl⟩
  · split
    · cases hs : (goSplit ge.organizer.email "@").head? with
      | none =>
        exact absurd (List.head?_eq_none_iff.mp hs) (goSplit_ne_nil _ _)
      | some first =>
        exact ⟨_, rfl, rfl, rfl⟩
    · exact ⟨_, rfl, rfl, rfl⟩

theorem endStep_preserves (rfc3339 : String → Option GoTime) (ge : GcalEvent)
    (ev : CalendarEvent) :
    (endStep rfc3339 ge ev).allDay = ev.allDay ∧
      (endStep rfc3339 ge ev).startTime = ev.startTime := by
  unfold endStep
  split
  · cases rfc3339 ge.end_.dateTime <;> exact ⟨rfl, rfl⟩
  · split
    · cases parseDateYMD ge.end_.date <;> exact ⟨rfl, rfl⟩
    · exact ⟨rfl, rfl⟩

theorem convertEvent_total (rfc3339 : String → Option GoTime) (ge : GcalEvent) :
    ∃ ev, convertEvent rfc3339 ge = some ev := by
  obtain ⟨out, hout, _, _⟩ := calendarStep_some ge
    (endStep rfc3339 ge (startStep rfc3339 ge
      { emptyCalendarEvent with id := ge.id, title := ge.summary, location := ge.location }))
  exact ⟨out, hout⟩

theorem decodeList_total {α β : Type} (dec : α → Option β)
    (hdec : ∀ a, ∃ b, dec a = some b) (l : List α) :
    ∃ bs, decodeList dec l = some bs := by
  induction l with
  | nil => exact ⟨[], rfl⟩
  | cons a as ih =>
    obtain ⟨b, hb⟩ := hdec a
    obtain ⟨bs, hbs⟩ := ih
    exact ⟨b :: bs, by simp [decodeList, hb, hbs]⟩

theorem truncate_some (s : String) (n : Nat) :
    ∃ p, truncate s n = some p ∧ p.data.length ≤ n + 3 := by
  unfold truncate
  by_cases h : s.data.length ≤ n
  · rw [if_pos h]
    exact ⟨s, rfl, by omega⟩
  · rw [if_neg h]
    have hslice : goSliceTo s n = some ⟨s.data.take n⟩ := by
      unfold goSliceTo
      rw [if_pos (by omega)]
    rw [hslice]
    refine ⟨_, rfl, ?_⟩
    show (String.mk (s.data.take n) ++ "...").data.length ≤ n + 3
    have hde : (String.mk (s.data.take n) ++ "...").data = s.data.take n ++ "...".data := rfl
    rw [hde, List.length_append]
    have : (s.data.take n).length ≤ n := by
      rw [List.length_take]
      omega
    simp only [List.length]
    omega

theorem parseEvents_total (jparse : String → Option Json) (rfc3339 : String → Option GoTime)
    (result : ToolResult) : ∃ r, parseEvents jparse rfc3339 result = some r := by
  simp only [parseEvents]
  split
  · exact ⟨_, rfl⟩
  · split
    · exact ⟨_, rfl⟩
    · cases hd : decodeEventsText jparse (eventsText result) with
      | some ges =>
        obtain ⟨evs, hevs⟩ := decodeList_total (convertEvent rfc3339)
          (convertEvent_total rfc3339) ges
        dsimp only
        rw [hevs]
        exact ⟨_, rfl⟩
      | none =>
        obtain ⟨p, hp, _⟩ := truncate_some (eventsText result) 200
        dsimp only
        rw [hp]
        exact ⟨_, rfl⟩

/-- C5.  Both decoders are total: no tool-result envelope makes `parseTasks`
hit one of its (explicitly modelled) panic sites, and no envelope, JSON
grammar outcome, or timestamp-parse outcome makes `parseEvents` hit one of
its; the worst case on any input is an empty list or a reported decode
error. -/
theorem decoders_total :
    (∀ result : ToolResult, (parseTasks result).isSome = true) ∧
      ∀ (jparse : String → Option Json) (rfc3339 : String → Option GoTime)
        (result : ToolResult), (parseEvents jparse rfc3339 result).isSome = true := by
  constructor
  · intro result
    obtain ⟨ts, hts⟩ := parseTasks_total result
    rw [hts]
    rfl
  · intro jparse rfc3339 result
    obtain ⟨r, hr⟩ := parseEvents_total jparse rfc3339 result
    rw [hr]
    rfl

/-- C10.  `parseTasks` never returns an error: on every envelope its Go
`error` result is `nil`; malformed input only shrinks the task list. -/
theorem parseTasks_nil_error (result : ToolResult) :
    ∃ ts : List Task, parseTasks result = some (ts, none) :=
  parseTasks_total result

/-! ### The delimited-text task decoder (C8, C9) -/

theorem collectTasks_titles {chunks : List String} {acc res : List Task}
    (hacc : ∀ t ∈ acc, t.title ≠ "") (h : collectTasks acc chunks = some res) :
    ∀ t ∈ res, t.title ≠ "" := by
  induction chunks generalizing acc with
  | nil =>
    simp only [collectTasks] at h
    injection h with h
    subst h
    exact hacc
  | cons c cs ih =>
    simp only [collectTasks] at h
    split at h
    · exact ih hacc h
    · cases hp : parseTaskBlock (goTrimSpace c) with
      | none => rw [hp] at h; cases h
      | some task =>
        rw [hp] at h
        dsimp only at h
        split at h
        · refine ih ?_ h
          intro t ht
          rcases List.mem_append.mp ht with h1 | h2
          · exact hacc t h1
          · rw [List.mem_singleton] at h2
            subst h2
            assumption
        · exact ih hacc h

theorem collectBlocks_titles {blocks : List ContentBlock} {acc res : List Task}
    (hacc : ∀ t ∈ acc, t.title ≠ "") (h : collectBlocks acc blocks = some res) :
    ∀ t ∈ res, t.title ≠ "" := by
  induction blocks generalizing acc with
  | nil =>
    simp only [collectBlocks] at h
    injection h with h
    subst h
    exact hacc
  | cons b bs ih =>
    simp only [collectBlocks] at h
    split at h
    · cases hc : collectTasks acc (goSplit b.text "\n---\n") with
      | none => rw [hc] at h; cases h
      | some acc' =>
        rw [hc] at h
        dsimp only at h
        exact ih (collectTasks_titles hacc hc) h
    · exact ih hacc h

/-- C8.  On the spec's two-chunk input the second chunk has an empty title
and is dropped, leaving exactly the "Buy milk"/"incomplete" record; and in
general every task `parseTasks` emits has a non-empty title. -/
theorem parseTasks_drops_empty_title :
    parseTasks ⟨[⟨"text",
          "Title: Buy milk\nUUID: abc\nStatus: incomplete\n---\nTitle: \nUUID: xyz\n"⟩], false⟩
        = some ([{ emptyTask with uuid := "abc", title := "Buy milk", status := "incomplete" }],
            none) ∧
      ∀ (result : ToolResult) (ts : List Task) (err : Option String),
        parseTasks result = some (ts, err) → ∀ t ∈ ts, t.title ≠ "" := by
  constructor
  · rfl
  · intro result ts err h t ht
    unfold parseTasks at h
    split at h
    · injection h with h
      injection h with h1 h2
      subst h1
      cases ht
    · cases hb : collectBlocks [] result.content with
      | none => rw [hb] at h; cases h
      | some tasks =>
        rw [hb] at h
        dsimp only at h
        injection h with h
        injection h with h1 h2
        subst h1
        exact collectBlocks_titles (by intro x hx; cases hx) hb t ht

/-- C8 witness: the general non-empty-title invariant instantiated on the
concrete two-chunk input. -/
theorem parseTasks_drops_empty_title_witness :
    ∀ t ∈ [{ emptyTask with uuid := "abc", title := "Buy milk", status := "incomplete" }],
      Task.title t ≠ "" :=
  parseTasks_drops_empty_title.2
    ⟨[⟨"text", "Title: Buy milk\nUUID: abc\nStatus: incomplete\n---\nTitle: \nUUID: xyz\n"⟩],
      false⟩
    [{ emptyTask with uuid := "abc", title := "Buy milk", status := "incomplete" }] none
    parseTasks_drops_empty_title.1

/-- C9 counterexample: inside notes mode a line starting with the
recognized key "Status:" does NOT terminate the mode — it is appended to
the notes text and the task's status stays empty, contrary to the claim
that any recognized key ends the mode and is parsed as a key/value pair. -/
theorem notes_mode_not_ended_by_status :
    parseTaskBlock "Title: x\nNotes: first\nStatus: completed"
        = some { emptyTask with title := "x", notes := "first\nStatus: completed" } ∧
      ({ emptyTask with title := "x", notes := "first\nStatus: completed" } : Task).status
        ≠ "completed" := by
  constructor
  · rfl
  · decide

/-- C9 amended.  Notes continuation mode is terminated exactly by a line
whose trimmed form starts with one of the four prefixes "Project:",
"Tags:", "Checklist:" or "Deadline:" (not by every recognized key); a
terminating line is then processed exactly as a normal key/value line
against the state with the notes committed, while every other line is
appended to the notes text. -/
theorem notes_mode_ends_only_on_four_keys (st : ScanState) (rawLine : String)
    (hn : st.inNotes = true) (hc : st.inChecklist = false) :
    (notesTerminator (goTrimSpace rawLine) = true →
        processLine st rawLine = processLine (endNotes st) rawLine) ∧
      (notesTerminator (goTrimSpace rawLine) = false →
        processLine st rawLine
          = some { st with notes := st.notes ++ goTrimSpace rawLine ++ "\n" }) := by
  obtain ⟨task, notes, inN, inC⟩ := st
  simp only at hn hc
  subst hn
  subst hc
  constructor
  · intro hterm
    simp [processLine, hterm, endNotes]
  · intro hterm
    simp [processLine, hterm]

/-! ### The structured JSON event decoder (C6, C7) -/

/-- C6 counterexample: for the event with `start.date = "2025-03-10"` and no
`start.dateTime`, the decoded record is all-day but its start time is
midnight in UTC (`time.Parse` with a zone-free layout yields UTC), not
midnight in the local time zone as the claim states. -/
theorem allday_start_not_local_midnight :
    parseEvents (fun _ => some alldayJson) noRfc alldayResult
        = some (.ok
            [{ emptyCalendarEvent with
                id := "evt1", title := "Standup",
                startTime := ⟨2025, 3, 10, 0, 0, 0, .utc⟩,
                endTime := ⟨2025, 3, 11, 0, 0, 0, .utc⟩,
                calendar := "Primary", allDay := true }]) ∧
      (⟨2025, 3, 10, 0, 0, 0, .utc⟩ : GoTime) ≠ localMidnightOn 2025 3 10 := by
  constructor
  · rfl
  · decide

/-- C6 amended.  For every event with `start.date = "2025-03-10"` and no
`start.dateTime`, the decoded record has `AllDay = true` and a start time
whose wall-clock reading is midnight on 2025-03-10 — but located in UTC,
not in the local time zone. -/
theorem allday_start_utc_midnight (rfc3339 : String → Option GoTime) (ge : GcalEvent)
    (hdt : ge.start.dateTime = "") (hd : ge.start.date = "2025-03-10") :
    ∃ ev, convertEvent rfc3339 ge = some ev ∧ ev.allDay = true ∧
      ev.startTime = ⟨2025, 3, 10, 0, 0, 0, .utc⟩ ∧
      ev.startTime ≠ localMidnightOn 2025 3 10 := by
  have hparse : parseDateYMD "2025-03-10" = some ⟨2025, 3, 10, 0, 0, 0, .utc⟩ := rfl
  set ev0 : CalendarEvent :=
    { emptyCalendarEvent with id := ge.id, title := ge.summary, location := ge.location }
    with hev0
  have h1 : startStep rfc3339 ge ev0
      = { ev0 with startTime := ⟨2025, 3, 10, 0, 0, 0, .utc⟩, allDay := true } := by
    unfold startStep
    rw [hdt, hd, hparse]
    simp
  obtain ⟨out, hout, hAD, hST⟩ := calendarStep_some ge (endStep rfc3339 ge
    (startStep rfc3339 ge ev0))
  obtain ⟨hAD', hST'⟩ := endStep_preserves rfc3339 ge (startStep rfc3339 ge ev0)
  refine ⟨out, hout, ?_, ?_, ?_⟩
  · rw [hAD, hAD', h1]
  · rw [hST, hST', h1]
  · rw [hST, hST', h1]
    show (⟨2025, 3, 10, 0, 0, 0, GoLocation.utc⟩ : GoTime) ≠ localMidnightOn 2025 3 10
    decide

/-- C6 amended witness: a concrete event record with only
`start.date = "2025-03-10"` decodes to an all-day event starting at
midnight UTC on that day. -/
theorem allday_start_utc_midnight_witness :
    ∃ ev, convertEvent noRfc { emptyGcalEvent with start := ⟨"", "2025-03-10", ""⟩ }
        = some ev ∧ ev.allDay = true ∧
      ev.startTime = ⟨2025, 3, 10, 0, 0, 0, .utc⟩ ∧
      ev.startTime ≠ localMidnightOn 2025 3 10 :=
  allday_start_utc_midnight noRfc { emptyGcalEvent with start := ⟨"", "2025-03-10", ""⟩ }
    rfl rfl

/-- C7.  When direct decoding of the text as a top-level event array fails
but the text is an object wrapping a decodable array under "events", the
decoder's second attempt succeeds and yields exactly the records the
unwrapped array would have produced; when both attempts fail, the decoder
reports a decode error carrying the text preview bounded by
`truncate(text, 200)`, of length at most 203. -/
theorem events_wrapped_fallback :
    (∀ (jp jp' : String → Option Json) (rfc3339 : String → Option GoTime)
        (text text' : String) (items : List Json) (ges : List GcalEvent),
        text ≠ "" → text' ≠ "" →
        jp text = some (.obj [("events", .arr items)]) →
        jp' text' = some (.arr items) →
        decodeGcalEventList (.arr items) = some ges →
        ∃ evs, parseEvents jp rfc3339 ⟨[⟨"text", text⟩], false⟩ = some (.ok evs) ∧
          parseEvents jp' rfc3339 ⟨[⟨"text", text'⟩], false⟩ = some (.ok evs)) ∧
      ∀ (jp : String → Option Json) (rfc3339 : String → Option GoTime) (text : String),
        text ≠ "" →
        (jp text).bind decodeGcalEventList = none →
        (jp text).bind decodeWrappedEvents = none →
        ∃ prev, truncate text 200 = some prev ∧ prev.data.length ≤ 203 ∧
          parseEvents jp rfc3339 ⟨[⟨"text", text⟩], false⟩
            = some (.error (.decodeFailed prev)) := by
  constructor
  · intro jp jp' rfc3339 text text' items ges ht ht' hw ha hdec
    have hitems : decodeList (decodeGcalEvent emptyGcalEvent) items = some ges := hdec
    have hk : keyMatches "events" "events" = true := rfl
    have hwrap2 : decodeWrappedEvents (.obj [("events", .arr items)]) = some ges := by
      simp [decodeWrappedEvents, foldFields, decodeWrappedField, hk, hitems]
    have hdet : decodeEventsText jp text = some ges := by
      unfold decodeEventsText
      rw [hw]
      dsimp only [Option.bind]
      rw [show decodeGcalEventList (Json.obj [("events", Json.arr items)]) = none from rfl]
      dsimp only
      exact hwrap2
    have hdet' : decodeEventsText jp' text' = some ges := by
      unfold decodeEventsText
      rw [ha]
      dsimp only [Option.bind]
      rw [show decodeGcalEventList (Json.arr items)
            = decodeList (decodeGcalEvent emptyGcalEvent) items from rfl, hitems]
    obtain ⟨evs, hevs⟩ := decodeList_total (convertEvent rfc3339)
      (convertEvent_total rfc3339) ges
    refine ⟨evs, ?_, ?_⟩
    · unfold parseEvents
      rw [if_neg (by simp), show eventsText ⟨[⟨"text", text⟩], false⟩ = text from rfl]
      dsimp only
      rw [if_neg ht, hdet]
      dsimp only
      rw [hevs]
    · unfold parseEvents
      rw [if_neg (by simp), show eventsText ⟨[⟨"text", text'⟩], false⟩ = text' from rfl]
      dsimp only
      rw [if_neg ht', hdet']
      dsimp only
      rw [hevs]
  · intro jp rfc3339 text ht hdirect hwrapped
    have hdet : decodeEventsText jp text = none := by
      unfold decodeEventsText
      rw [hdirect]
      dsimp only
      exact hwrapped
    obtain ⟨prev, hp, hlen⟩ := truncate_some text 200
    refine ⟨prev, hp, hlen, ?_⟩
    unfold parseEvents
    rw [if_neg (by simp), show eventsText ⟨[⟨"text", text⟩], false⟩ = text from rfl]
    dsimp only
    rw [if_neg ht, hdet]
    dsimp only
    rw [hp]
    rfl

/-- C7 witness: a one-event array wrapped under "events" decodes to the
same result as the same array at top level, and non-JSON text yields the
decode error with its preview. -/
theorem events_wrapped_fallback_witness :
    (parseEvents (fun _ => some (.obj [("events", .arr [.obj [("id", .str "e1")]])])) noRfc
          ⟨[⟨"text", "wrapped"⟩], false⟩
        = parseEvents (fun _ => some (.arr [.obj [("id", .str "e1")]])) noRfc
          ⟨[⟨"text", "plain"⟩], false⟩) ∧
      parseEvents (fun _ => none) noRfc ⟨[⟨"text", "not json"⟩], false⟩
        = some (.error (.decodeFailed "not json")) := by
  constructor
  · obtain ⟨evs, h1, h2⟩ := events_wrapped_fallback.1
      (fun _ => some (.obj [("events", .arr [.obj [("id", .str "e1")]])]))
      (fun _ => some (.arr [.obj [("id", .str "e1")]])) noRfc "wrapped" "plain"
      [.obj [("id", .str "e1")]] [{ emptyGcalEvent with id := "e1" }]
      (by decide) (by decide) rfl rfl rfl
    rw [h1, h2]
  · obtain ⟨prev, hp, _, hres⟩ := events_wrapped_fallback.2 (fun _ => none) noRfc "not json"
      (by decide) rfl rfl
    rw [show truncate "not json" 200 = some "not json" from rfl] at hp
    injection hp with hpe
    rw [← hpe] at hres
    exact hres

/-- C9 amended witness: in notes mode, "Project: Work" is handled as a
key/value line on the committed state, while "more notes" is appended. -/
theorem notes_mode_ends_only_on_four_keys_witness :
    (processLine ⟨emptyTask, "x\n", true, false⟩ "Project: Work"
        = processLine (endNotes ⟨emptyTask, "x\n", true, false⟩) "Project: Work") ∧
      processLine ⟨emptyTask, "x\n", true, false⟩ "more notes"
        = some { (⟨emptyTask, "x\n", true, false⟩ : ScanState) with
            notes := "x\n" ++ goTrimSpace "more notes" ++ "\n" } :=
  ⟨(notes_mode_ends_only_on_four_keys ⟨emptyTask, "x\n", true, false⟩ "Project: Work"
      rfl rfl).1 rfl,
    (notes_mode_ends_only_on_four_keys ⟨emptyTask, "x\n", true, false⟩ "more notes"
      rfl rfl).2 rfl⟩

end Partner
